import Mathlib

/-!
# Verification of the k8s-controllers-template specification

This development checks the natural-language specification of the
`k8s-controllers-template` repository against its code.

The repository's `informer` command builds its watch/cache machinery
(Store, Delta Queue, Reflector, Processor, sync barrier) from the
`client-go` cache library; that library's code is not part of the
repository, only its call sites in `cmd/informer.go` are.  The core
synchronization engine is therefore modelled here from the
specification's own words (each such definition's doc comment starts
with `Modelled from the spec:`).  The CLI-level behaviour that *is* in
the repository — the event handlers of `createDeploymentInformer`, the
`list` command's `listDeployments`, and `generate-pod-yaml` — is
embedded directly from the Go source.
-/

namespace Informer

/-- Resource keys (the spec's `ResourceKey`, e.g. namespace+name);
modelled abstractly as naturals. -/
abbrev Key := Nat

/-- Modelled from the spec: an `ObjectSnapshot` — an opaque payload
carrying its key and a comparable resource version. -/
structure Obj where
  key : Key
  rv : Nat
  deriving DecidableEq, Repr

/-- Modelled from the spec: the four delta kinds
`Added | Updated | Deleted | Sync`. -/
inductive DeltaKind where
  | Added
  | Updated
  | Deleted
  | Sync
  deriving DecidableEq, Repr

/-- Modelled from the spec: a `Delta` is a kind together with the object
payload; the key of a delta is the key of its object. -/
structure Delta where
  kind : DeltaKind
  obj : Obj
  deriving DecidableEq, Repr

/-- Modelled from the spec: the Store is a keyed map `ResourceKey →
ObjectSnapshot`; represented as a list of objects keyed by `Obj.key`. -/
abbrev Store := List Obj

/-- Look up the Store value for a key (first entry with that key). -/
def storeGet : Store → Key → Option Obj
  | [], _ => none
  | o :: rest, k => if o.key = k then some o else storeGet rest k

/-- Set/overwrite a key's value in the Store (in-place replacement of the
first entry with that key; appended at the end when absent). -/
def storeSet : Store → Obj → Store
  | [], o => [o]
  | x :: rest, o => if x.key = o.key then o :: rest else x :: storeSet rest o

/-- Remove a key from the Store. -/
def storeRemove : Store → Key → Store
  | [], _ => []
  | x :: rest, k =>
    if x.key = k then storeRemove rest k else x :: storeRemove rest k

/-- Handler invocations, as delivered to the registered
`{onAdd, onUpdate, onDelete}` capabilities. -/
inductive HEvent where
  | onAdd (o : Obj)
  | onUpdate (prev cur : Obj)
  | onDelete (last : Obj)
  deriving DecidableEq, Repr

/-- The key a handler invocation is about. -/
def HEvent.key : HEvent → Key
  | .onAdd o => o.key
  | .onUpdate _ cur => cur.key
  | .onDelete last => last.key

/-- Modelled from the spec: the handler invocation the Processor performs
for one delta, computed from the Store *before* the delta is applied:
`onAdd(object)`, `onUpdate(previous, current)`, `onDelete(lastKnown)`;
a `Sync` delta behaves as an update of the current Store value. -/
def dispatch (st : Store) (d : Delta) : HEvent :=
  match d.kind with
  | .Added => .onAdd d.obj
  | .Updated => .onUpdate ((storeGet st d.obj.key).getD d.obj) d.obj
  | .Sync => .onUpdate ((storeGet st d.obj.key).getD d.obj) d.obj
  | .Deleted => .onDelete ((storeGet st d.obj.key).getD d.obj)

/-- Modelled from the spec: `Store.apply(delta)` — `Added`/`Updated`/
`Sync` set/overwrite the key's value; `Deleted` removes it. -/
def applyDelta (st : Store) (d : Delta) : Store :=
  match d.kind with
  | .Deleted => storeRemove st d.obj.key
  | _ => storeSet st d.obj

/-- Modelled from the spec: the Processor's treatment of one popped delta
list — for every delta in order, compute the handler invocation from the
pre-apply Store, then apply the delta.  Returns the final Store and the
handler trace in invocation order. -/
def processDeltas : Store → List Delta → Store × List HEvent
  | st, [] => (st, [])
  | st, d :: ds =>
    let ev := dispatch st d
    let rest := processDeltas (applyDelta st d) ds
    (rest.1, ev :: rest.2)

/-- Pending-delta map: `ResourceKey → ordered list of pending deltas`. -/
abbrev Pending := List (Key × List Delta)

/-- Look up a key's pending delta list. -/
def pendingGet : Pending → Key → Option (List Delta)
  | [], _ => none
  | (k', ds) :: rest, k => if k' = k then some ds else pendingGet rest k

/-- Set/overwrite a key's pending delta list. -/
def pendingSet : Pending → Key → List Delta → Pending
  | [], k, ds => [(k, ds)]
  | (k', ds') :: rest, k, ds =>
    if k' = k then (k, ds) :: rest else (k', ds') :: pendingSet rest k ds

/-- Drop a key's pending delta list entirely. -/
def pendingRemove : Pending → Key → Pending
  | [], _ => []
  | e :: rest, k =>
    if e.1 = k then pendingRemove rest k else e :: pendingRemove rest k

/-- Modelled from the spec: full state of the Delta Queue / Store /
sync-barrier assembly.  `fifo` is the FIFO of keys with pending work
(a key appears at most once); `populated` records whether the first
`replace` has happened; `initialPending` the keys of the first replace's
deltas not yet popped; `trace` the handler invocations made so far. -/
structure QueueState where
  store : Store
  pending : Pending
  fifo : List Key
  populated : Bool
  initialPending : List Key
  trace : List HEvent
  deriving DecidableEq, Repr

/-- Modelled from the spec: the sync barrier — true once the first
replace has had every one of its generated deltas popped and applied. -/
def hasSynced (s : QueueState) : Bool :=
  s.populated && s.initialPending.isEmpty

/-- A pending delta list consisting of exactly one unprocessed `Added`. -/
def isLoneAdded : List Delta → Bool
  | [d] => d.kind = DeltaKind.Added
  | _ => false

/-- Modelled from the spec: `put(key, delta)` — append to the key's
pending list, adding the key to the FIFO only if not already present;
compression policy: a `Deleted` arriving for a key whose only pending
delta is an unprocessed `Added` drops both and removes the key from the
FIFO entirely. -/
def put (s : QueueState) (d : Delta) : QueueState :=
  let k := d.obj.key
  match pendingGet s.pending k with
  | none =>
    { s with pending := pendingSet s.pending k [d], fifo := s.fifo ++ [k] }
  | some ds =>
    if d.kind = DeltaKind.Deleted ∧ isLoneAdded ds then
      { s with
        pending := pendingRemove s.pending k
        fifo := s.fifo.filter (fun k' => k' ≠ k)
        initialPending := s.initialPending.filter (fun k' => k' ≠ k) }
    else
      { s with pending := pendingSet s.pending k (ds ++ [d]) }

/-- Modelled from the spec: `pop` — remove the oldest ready key's entire
delta list and process it (apply each delta to the Store, then invoke
the handler); a no-op when no key has pending work. -/
def popStep (s : QueueState) : QueueState :=
  match s.fifo with
  | [] => s
  | k :: rest =>
    let ds := (pendingGet s.pending k).getD []
    let res := processDeltas s.store ds
    { store := res.1
      pending := pendingRemove s.pending k
      fifo := rest
      populated := s.populated
      initialPending := s.initialPending.filter (fun k' => k' ≠ k)
      trace := s.trace ++ res.2 }

/-- Modelled from the spec: the deltas generated by `Replace(snapshot)` —
`Added` for new keys, `Updated` for keys whose version changed, and
synthetic `Deleted` for keys present in the old Store but absent from the
new snapshot. -/
def replaceDeltas (st : Store) (snap : List Obj) : List Delta :=
  (snap.filterMap fun o =>
    match storeGet st o.key with
    | none => some ⟨DeltaKind.Added, o⟩
    | some old => if old.rv ≠ o.rv then some ⟨DeltaKind.Updated, o⟩ else none)
  ++ (st.filterMap fun x =>
    if snap.any (fun o => o.key = x.key) then none
    else some ⟨DeltaKind.Deleted, x⟩)

/-- Modelled from the spec: `replace(snapshot)` enqueues the computed
deltas; the first replace arms the sync barrier with the keys it
queued. -/
def replaceOp (s : QueueState) (snap : List Obj) : QueueState :=
  let s' := (replaceDeltas s.store snap).foldl put s
  if s'.populated then s'
  else { s' with populated := true, initialPending := s'.fifo }

/-- Modelled from the spec: `resync()` — enqueue a `Sync` delta for every
key currently in the Store, skipping keys that already have pending real
(non-`Sync`) deltas. -/
def resyncOp (s : QueueState) : QueueState :=
  s.store.foldl
    (fun acc o =>
      if ((pendingGet acc.pending o.key).getD []).any
          (fun d => d.kind ≠ DeltaKind.Sync) then acc
      else put acc ⟨DeltaKind.Sync, o⟩)
    s

/-- The operations a client or the Reflector may perform on the
assembly, for stating properties over arbitrary interleavings. -/
inductive Op where
  | putD (d : Delta)
  | replace (snap : List Obj)
  | resync
  | pop
  deriving Repr

/-- One operation applied to the state. -/
def applyOp (s : QueueState) : Op → QueueState
  | .putD d => put s d
  | .replace snap => replaceOp s snap
  | .resync => resyncOp s
  | .pop => popStep s

/-- A sequence of operations applied in order. -/
def applyOps (s : QueueState) (ops : List Op) : QueueState :=
  ops.foldl applyOp s

/-- The freshly constructed assembly: empty Store, empty queue, sync
barrier unarmed. -/
def startState : QueueState :=
  { store := [], pending := [], fifo := [], populated := false
    initialPending := [], trace := [] }

end Informer

namespace Informer

/-- The outcome of a `List` attempt against the remote source. -/
abbrev ListAttempt := Nat → Except String (List Obj)

/-- Modelled from the spec: the Reflector's bounded retry of the List
call — try up to `cap` attempts; when every attempt fails the condition
turns fatal (`ListFailure`), reported upward rather than retried
forever. -/
def listWithRetry (attempt : ListAttempt) : Nat → Except String (List Obj)
  | 0 => .error "ListFailure"
  | n + 1 =>
    match attempt n with
    | .ok xs => .ok xs
    | .error _ => listWithRetry attempt n

/-- What the owning process does with the watch subsystem's result. -/
inductive RunOutcome where
  | fatalExit (msg : String)
  | running
  deriving DecidableEq, Repr

/-- Embeds `createKubernetesClient` (cmd/informer.go): the connection is
tested with a List call; a failure is wrapped and returned as an error,
never ignored. -/
def createKubernetesClient (testList : Except String Unit) : Except String Unit :=
  match testList with
  | .error e => .error ("failed to connect to Kubernetes cluster: " ++ e)
  | .ok _ => .ok ()

/-- Embeds `runInformer` (cmd/informer.go): any error from client
creation (which includes the List connection test) causes `log.Fatal`,
i.e. the process exits with a startup failure. -/
def runInformerOutcome (clientResult : Except String Unit) : RunOutcome :=
  match clientResult with
  | .error e => .fatalExit ("Failed to create Kubernetes client: " ++ e)
  | .ok _ => .running

end Informer

namespace Cmd

/-- A deployment object as the handlers and `listDeployments` see it:
`replicas` embeds the `*int32` field `Spec.Replicas` (`none` = nil
pointer). -/
structure Deployment where
  name : String
  nsName : String
  replicas : Option Int
  deriving DecidableEq, Repr

/-- A log line emitted by the informer's add handler. -/
structure AddLogLine where
  name : String
  nsName : String
  replicas : Int
  deriving DecidableEq, Repr

/-- A log line emitted by the informer's update handler. -/
structure UpdateLogLine where
  name : String
  nsName : String
  oldReplicas : Int
  newReplicas : Int
  deriving DecidableEq, Repr

/-- Embeds the `AddFunc` handler of `createDeploymentInformer`
(cmd/informer.go): it logs `*deployment.Spec.Replicas` with no nil
guard; `none` models the nil-pointer dereference panic. -/
def addFunc (d : Deployment) : Option AddLogLine :=
  match d.replicas with
  | none => none
  | some r => some { name := d.name, nsName := d.nsName, replicas := r }

/-- Embeds the `UpdateFunc` handler of `createDeploymentInformer`
(cmd/informer.go): it dereferences both the old and the new object's
`Spec.Replicas` with no nil guard. -/
def updateFunc (oldD newD : Deployment) : Option UpdateLogLine :=
  match oldD.replicas, newD.replicas with
  | some a, some b =>
    some { name := newD.name, nsName := newD.nsName
           oldReplicas := a, newReplicas := b }
  | _, _ => none

/-- Embeds the replica-count computation of `listDeployments`
(cmd/version.go, `list` command): `var replicas int32; if
deployment.Spec.Replicas != nil { replicas = *deployment.Spec.Replicas }`
— nil is substituted by 0 and the row always completes. -/
def listRowReplicas (d : Deployment) : Int :=
  match d.replicas with
  | some r => r
  | none => 0

end Cmd

namespace PodYaml

/-- Embeds `ConfigMapVolumeSource` (cmd/yaml_generator.go). -/
structure ConfigMapVolumeSource where
  name : String
  deriving DecidableEq, Repr

/-- Embeds `Volume` (cmd/yaml_generator.go). -/
structure Volume where
  name : String
  configMap : Option ConfigMapVolumeSource
  deriving DecidableEq, Repr

/-- Embeds `VolumeMount` (cmd/yaml_generator.go). -/
structure VolumeMount where
  name : String
  mountPath : String
  deriving DecidableEq, Repr

/-- Embeds `Port` (cmd/yaml_generator.go). -/
structure Port where
  containerPort : Int
  protocol : String
  deriving DecidableEq, Repr

/-- Embeds `Container` (cmd/yaml_generator.go). -/
structure Container where
  name : String
  image : String
  ports : List Port
  volumeMounts : List VolumeMount
  deriving DecidableEq, Repr

/-- Embeds `Metadata` (cmd/yaml_generator.go); `nsName` embeds the Go
field `Namespace`. -/
structure Metadata where
  name : String
  nsName : String
  labels : List (String × String)
  deriving DecidableEq, Repr

/-- Embeds `Spec` (cmd/yaml_generator.go). -/
structure Spec where
  containers : List Container
  volumes : List Volume
  deriving DecidableEq, Repr

/-- Embeds `PodSpec` (cmd/yaml_generator.go). -/
structure PodSpec where
  apiVersion : String
  kind : String
  metadata : Metadata
  spec : Spec
  deriving DecidableEq, Repr

/-- The configuration values of `generate-pod-yaml` after Viper has
merged the env file, environment variables and command-line flags. -/
structure PodConfig where
  podName : String
  containerName : String
  image : String
  tag : String
  port : Int
  nsName : String
  configmap : String
  output : String
  deriving DecidableEq, Repr

/-- Embeds the Pod construction of `generatePodYaml`
(cmd/yaml_generator.go lines 274–333): the base Pod has one container
with one TCP port and no volumes; when `configmap` is non-empty a single
volume `config-volume` referencing the ConfigMap is added, and the
container gets a single mount of it at `/etc/config`. -/
def buildPod (c : PodConfig) : PodSpec :=
  let base : PodSpec :=
    { apiVersion := "v1"
      kind := "Pod"
      metadata :=
        { name := c.podName, nsName := c.nsName
          labels := [("app", c.podName)] }
      spec :=
        { containers :=
            [{ name := c.containerName
               image := c.image ++ ":" ++ c.tag
               ports := [{ containerPort := c.port, protocol := "TCP" }]
               volumeMounts := [] }]
          volumes := [] } }
  if c.configmap = "" then base
  else
    { base with
      spec :=
        { containers :=
            base.spec.containers.map fun ct =>
              { ct with
                volumeMounts :=
                  [{ name := "config-volume", mountPath := "/etc/config" }] }
          volumes :=
            [{ name := "config-volume"
               configMap := some { name := c.configmap } }] } }

/-- Observable outcome of a `generate-pod-yaml` invocation. -/
inductive GenOutcome where
  | validationError
  | yamlToFile (pod : PodSpec) (file : String)
  | yamlToStdout (pod : PodSpec)
  deriving DecidableEq, Repr

/-- Embeds the `Run` body of `generatePodYaml` (cmd/yaml_generator.go):
required-flag validation first — if any of pod-name, container-name,
image, tag is empty or port is 0, the command prints an error and
returns with no YAML generated and no file written; otherwise the Pod is
built and written to the output file, or to stdout when the output flag
is empty or `stdout`. -/
def generatePodYamlRun (c : PodConfig) : GenOutcome :=
  if c.podName = "" ∨ c.containerName = "" ∨ c.image = "" ∨ c.tag = "" ∨
      c.port = 0 then
    .validationError
  else if c.output ≠ "" ∧ c.output ≠ "stdout" then
    .yamlToFile (buildPod c) c.output
  else
    .yamlToStdout (buildPod c)

end PodYaml

namespace Informer

theorem storeGet_key {st : Store} {k : Key} {o : Obj}
    (h : storeGet st k = some o) : o.key = k := by
  induction st with
  | nil => simp [storeGet] at h
  | cons x rest ih =>
    by_cases hx : x.key = k
    · simp [storeGet, hx] at h
      exact h ▸ hx
    · rw [storeGet, if_neg hx] at h
      exact ih h

theorem storeGet_storeSet_self (st : Store) (o : Obj) :
    storeGet (storeSet st o) o.key = some o := by
  induction st with
  | nil => simp [storeSet, storeGet]
  | cons x rest ih =>
    by_cases hx : x.key = o.key
    · simp [storeSet, hx, storeGet]
    · simp [storeSet, hx, storeGet, ih]

theorem storeGet_storeSet_ne (st : Store) (o : Obj) (k : Key)
    (h : k ≠ o.key) : storeGet (storeSet st o) k = storeGet st k := by
  have h' : o.key ≠ k := Ne.symm h
  induction st with
  | nil => simp [storeSet, storeGet, h']
  | cons x rest ih =>
    by_cases hx : x.key = o.key
    · have hxk : x.key ≠ k := hx ▸ h'
      simp [storeSet, hx, storeGet, h', hxk]
    · simp [storeSet, hx, storeGet, ih]

theorem storeGet_storeRemove_self (st : Store) (k : Key) :
    storeGet (storeRemove st k) k = none := by
  induction st with
  | nil => simp [storeRemove, storeGet]
  | cons x rest ih =>
    by_cases hx : x.key = k
    · simpa [storeRemove, hx] using ih
    · simp [storeRemove, hx, storeGet, ih]

theorem storeGet_storeRemove_ne (st : Store) (k k' : Key)
    (h : k' ≠ k) : storeGet (storeRemove st k) k' = storeGet st k' := by
  induction st with
  | nil => simp [storeRemove, storeGet]
  | cons x rest ih =>
    by_cases hx : x.key = k
    · have hx' : x.key ≠ k' := by rw [hx]; exact Ne.symm h
      simp [storeRemove, hx, storeGet, hx', ih, Ne.symm h]
    · by_cases hx' : x.key = k'
      · simp [storeRemove, hx, storeGet, hx', h]
      · simp [storeRemove, hx, storeGet, hx', ih]

theorem pendingGet_pendingSet_self (p : Pending) (k : Key) (ds : List Delta) :
    pendingGet (pendingSet p k ds) k = some ds := by
  induction p with
  | nil => simp [pendingSet, pendingGet]
  | cons e rest ih =>
    by_cases he : e.1 = k
    · simp [pendingSet, he, pendingGet]
    · simp [pendingSet, he, pendingGet, ih]

theorem pendingGet_pendingSet_ne (p : Pending) (k k' : Key) (ds : List Delta)
    (h : k' ≠ k) : pendingGet (pendingSet p k ds) k' = pendingGet p k' := by
  have h' : k ≠ k' := Ne.symm h
  induction p with
  | nil => simp [pendingSet, pendingGet, h']
  | cons e rest ih =>
    by_cases he : e.1 = k
    · have hek : e.1 ≠ k' := he ▸ h'
      simp [pendingSet, he, pendingGet, h', hek]
    · simp [pendingSet, he, pendingGet, ih]

theorem pendingGet_pendingRemove_self (p : Pending) (k : Key) :
    pendingGet (pendingRemove p k) k = none := by
  induction p with
  | nil => simp [pendingRemove, pendingGet]
  | cons e rest ih =>
    by_cases he : e.1 = k
    · simpa [pendingRemove, he] using ih
    · simp [pendingRemove, he, pendingGet, ih]

theorem pendingGet_pendingRemove_ne (p : Pending) (k k' : Key)
    (h : k' ≠ k) : pendingGet (pendingRemove p k) k' = pendingGet p k' := by
  induction p with
  | nil => simp [pendingRemove, pendingGet]
  | cons e rest ih =>
    by_cases he : e.1 = k
    · have he' : e.1 ≠ k' := by rw [he]; exact Ne.symm h
      simp [pendingRemove, he, pendingGet, he', ih, Ne.symm h]
    · by_cases he' : e.1 = k'
      · simp [pendingRemove, he, pendingGet, he', h]
      · simp [pendingRemove, he, pendingGet, he', ih]

end Informer

namespace Informer

theorem put_fresh (s : QueueState) (d : Delta)
    (hget : pendingGet s.pending d.obj.key = none) :
    put s d =
      { s with
        pending := pendingSet s.pending d.obj.key [d]
        fifo := s.fifo ++ [d.obj.key] } := by
  simp only [put]
  rw [hget]

theorem put_compress (s : QueueState) (d : Delta) (ds : List Delta)
    (hget : pendingGet s.pending d.obj.key = some ds)
    (hd : d.kind = DeltaKind.Deleted) (hl : isLoneAdded ds = true) :
    put s d =
      { s with
        pending := pendingRemove s.pending d.obj.key
        fifo := s.fifo.filter (fun k' => k' ≠ d.obj.key)
        initialPending :=
          s.initialPending.filter (fun k' => k' ≠ d.obj.key) } := by
  simp only [put]
  rw [hget]
  simp [hd, hl]

theorem put_append (s : QueueState) (d : Delta) (ds : List Delta)
    (hget : pendingGet s.pending d.obj.key = some ds)
    (h : ¬(d.kind = DeltaKind.Deleted ∧ isLoneAdded ds = true)) :
    put s d =
      { s with pending := pendingSet s.pending d.obj.key (ds ++ [d]) } := by
  simp only [put]
  rw [hget]
  simp only [if_neg h]

/-- C1: Add/Delete coalescing in the Delta Queue — for a key with no
prior pending deltas and absent from the Store, enqueuing `Added(k)`
then `Deleted(k)` before either is popped drops both deltas, removes `k`
from the FIFO, leaves the handler trace untouched (zero invocations for
`k`) and leaves `k` absent from the Store. -/
theorem addDelete_coalescing (s : QueueState) (o o' : Obj)
    (hk : o'.key = o.key)
    (hp : pendingGet s.pending o.key = none)
    (hs : storeGet s.store o.key = none) :
    pendingGet (put (put s ⟨DeltaKind.Added, o⟩) ⟨DeltaKind.Deleted, o'⟩).pending
        o.key = none ∧
    o.key ∉ (put (put s ⟨DeltaKind.Added, o⟩) ⟨DeltaKind.Deleted, o'⟩).fifo ∧
    (put (put s ⟨DeltaKind.Added, o⟩) ⟨DeltaKind.Deleted, o'⟩).store = s.store ∧
    storeGet (put (put s ⟨DeltaKind.Added, o⟩) ⟨DeltaKind.Deleted, o'⟩).store
        o.key = none ∧
    (put (put s ⟨DeltaKind.Added, o⟩) ⟨DeltaKind.Deleted, o'⟩).trace = s.trace := by
  have h1 : put s ⟨DeltaKind.Added, o⟩ =
      { s with pending := pendingSet s.pending o.key [⟨DeltaKind.Added, o⟩]
               fifo := s.fifo ++ [o.key] } :=
    put_fresh s ⟨DeltaKind.Added, o⟩ hp
  have h2 : pendingGet (put s ⟨DeltaKind.Added, o⟩).pending o'.key =
      some [⟨DeltaKind.Added, o⟩] := by
    rw [h1, hk]
    exact pendingGet_pendingSet_self _ _ _
  have h3 : put (put s ⟨DeltaKind.Added, o⟩) ⟨DeltaKind.Deleted, o'⟩ =
      { put s ⟨DeltaKind.Added, o⟩ with
        pending := pendingRemove (put s ⟨DeltaKind.Added, o⟩).pending o'.key
        fifo := (put s ⟨DeltaKind.Added, o⟩).fifo.filter (fun k' => k' ≠ o'.key)
        initialPending :=
          (put s ⟨DeltaKind.Added, o⟩).initialPending.filter
            (fun k' => k' ≠ o'.key) } :=
    put_compress _ _ _ h2 rfl rfl
  refine ⟨?_, ?_, ?_, ?_, ?_⟩
  · rw [h3]
    simp only [hk]
    exact pendingGet_pendingRemove_self _ _
  · rw [h3]
    simp only [hk]
    intro hmem
    have := (List.mem_filter.mp hmem).2
    simp at this
  · rw [h3, h1]
  · rw [h3, h1]
    exact hs
  · rw [h3, h1]

/-- Closed witness for `addDelete_coalescing` at a concrete state. -/
theorem addDelete_coalescing_witness :
    pendingGet (put (put startState ⟨DeltaKind.Added, ⟨1, 0⟩⟩)
        ⟨DeltaKind.Deleted, ⟨1, 1⟩⟩).pending 1 = none ∧
    1 ∉ (put (put startState ⟨DeltaKind.Added, ⟨1, 0⟩⟩)
        ⟨DeltaKind.Deleted, ⟨1, 1⟩⟩).fifo ∧
    (put (put startState ⟨DeltaKind.Added, ⟨1, 0⟩⟩)
        ⟨DeltaKind.Deleted, ⟨1, 1⟩⟩).store = startState.store ∧
    storeGet (put (put startState ⟨DeltaKind.Added, ⟨1, 0⟩⟩)
        ⟨DeltaKind.Deleted, ⟨1, 1⟩⟩).store 1 = none ∧
    (put (put startState ⟨DeltaKind.Added, ⟨1, 0⟩⟩)
        ⟨DeltaKind.Deleted, ⟨1, 1⟩⟩).trace = startState.trace :=
  addDelete_coalescing startState ⟨1, 0⟩ ⟨1, 1⟩ rfl rfl rfl

end Informer

namespace Informer

/-- C7: ListFailure is fatal and reported — when every List attempt up
to the retry cap fails, the retry loop surfaces a `ListFailure` error,
and feeding that failure through `createKubernetesClient`/`runInformer`
produces a fatal process exit rather than a silent retry. -/
theorem listFailure_fatal (attempt : ListAttempt) (cap : Nat)
    (hfail : ∀ i, ∃ e, attempt i = Except.error e) :
    listWithRetry attempt cap = Except.error "ListFailure" ∧
    runInformerOutcome (createKubernetesClient
        ((listWithRetry attempt cap).map (fun _ => ()))) =
      RunOutcome.fatalExit ("Failed to create Kubernetes client: " ++
        ("failed to connect to Kubernetes cluster: " ++ "ListFailure")) := by
  have hret : listWithRetry attempt cap = Except.error "ListFailure" := by
    induction cap with
    | zero => rfl
    | succ n ih =>
      obtain ⟨e, he⟩ := hfail n
      simp [listWithRetry, he, ih]
  refine ⟨hret, ?_⟩
  rw [hret]
  rfl

/-- Closed witness for `listFailure_fatal` with an always-failing List
and a retry cap of 3. -/
theorem listFailure_fatal_witness :
    listWithRetry (fun _ => Except.error "boom") 3 =
      Except.error "ListFailure" ∧
    runInformerOutcome (createKubernetesClient
        ((listWithRetry (fun _ => Except.error "boom") 3).map (fun _ => ()))) =
      RunOutcome.fatalExit ("Failed to create Kubernetes client: " ++
        ("failed to connect to Kubernetes cluster: " ++ "ListFailure")) :=
  listFailure_fatal (fun _ => Except.error "boom") 3
    (fun _ => ⟨"boom", rfl⟩)

end Informer

namespace Cmd

/-- C8: the informer's add and update handlers dereference
`Spec.Replicas` with no nil guard — they complete (return a log line)
exactly when every involved deployment has non-nil replicas — while
`listDeployments` substitutes 0 for nil and always completes. -/
theorem handlers_require_replicas (d oldD newD : Deployment) :
    ((addFunc d).isSome ↔ d.replicas.isSome) ∧
    ((updateFunc oldD newD).isSome ↔
      (oldD.replicas.isSome ∧ newD.replicas.isSome)) ∧
    listRowReplicas d = d.replicas.getD 0 := by
  refine ⟨?_, ?_, ?_⟩
  · cases hd : d.replicas <;> simp [addFunc, hd]
  · cases ho : oldD.replicas <;> cases hn : newD.replicas <;>
      simp [updateFunc, ho, hn]
  · cases hd : d.replicas <;> simp [listRowReplicas, hd]

end Cmd

namespace PodYaml

/-- C9: when validation passes, the generated Pod has exactly one
container; with an empty `configmap` value it has no volumes and the
container no volume mounts; with a non-empty one it has exactly one
volume `config-volume` referencing that ConfigMap and the container
exactly one mount of it at `/etc/config`. -/
theorem configmap_volume_shape (c : PodConfig)
    (hv : ¬(c.podName = "" ∨ c.containerName = "" ∨ c.image = "" ∨
      c.tag = "" ∨ c.port = 0)) :
    (generatePodYamlRun c = GenOutcome.yamlToFile (buildPod c) c.output ∨
      generatePodYamlRun c = GenOutcome.yamlToStdout (buildPod c)) ∧
    (buildPod c).spec.containers.length = 1 ∧
    (c.configmap = "" →
      (buildPod c).spec.volumes = [] ∧
      (buildPod c).spec.containers.map Container.volumeMounts = [[]]) ∧
    (c.configmap ≠ "" →
      (buildPod c).spec.volumes =
        [{ name := "config-volume", configMap := some { name := c.configmap } }] ∧
      (buildPod c).spec.containers.map Container.volumeMounts =
        [[{ name := "config-volume", mountPath := "/etc/config" }]]) := by
  refine ⟨?_, ?_, ?_, ?_⟩
  · by_cases ho : c.output ≠ "" ∧ c.output ≠ "stdout"
    · left
      simp only [generatePodYamlRun, if_neg hv, if_pos ho]
    · right
      simp only [generatePodYamlRun, if_neg hv, if_neg ho]
  · by_cases hc : c.configmap = "" <;> simp [buildPod, hc]
  · intro hc
    simp [buildPod, hc]
  · intro hc
    simp [buildPod, hc]

/-- Closed witness for `configmap_volume_shape` with a non-empty
ConfigMap value. -/
theorem configmap_volume_shape_witness :
    (generatePodYamlRun
        { podName := "p", containerName := "c", image := "nginx", tag := "latest"
          port := 80, nsName := "default", configmap := "cm", output := "" } =
      GenOutcome.yamlToFile
        (buildPod
          { podName := "p", containerName := "c", image := "nginx", tag := "latest"
            port := 80, nsName := "default", configmap := "cm", output := "" }) "" ∨
      generatePodYamlRun
        { podName := "p", containerName := "c", image := "nginx", tag := "latest"
          port := 80, nsName := "default", configmap := "cm", output := "" } =
      GenOutcome.yamlToStdout
        (buildPod
          { podName := "p", containerName := "c", image := "nginx", tag := "latest"
            port := 80, nsName := "default", configmap := "cm", output := "" })) ∧
    (buildPod
        { podName := "p", containerName := "c", image := "nginx", tag := "latest"
          port := 80, nsName := "default", configmap := "cm", output := "" }).spec.containers.length = 1 ∧
    ("cm" = "" →
      (buildPod
          { podName := "p", containerName := "c", image := "nginx", tag := "latest"
            port := 80, nsName := "default", configmap := "cm", output := "" }).spec.volumes = [] ∧
      (buildPod
          { podName := "p", containerName := "c", image := "nginx", tag := "latest"
            port := 80, nsName := "default", configmap := "cm", output := "" }).spec.containers.map
        Container.volumeMounts = [[]]) ∧
    ("cm" ≠ "" →
      (buildPod
          { podName := "p", containerName := "c", image := "nginx", tag := "latest"
            port := 80, nsName := "default", configmap := "cm", output := "" }).spec.volumes =
        [{ name := "config-volume", configMap := some { name := "cm" } }] ∧
      (buildPod
          { podName := "p", containerName := "c", image := "nginx", tag := "latest"
            port := 80, nsName := "default", configmap := "cm", output := "" }).spec.containers.map
        Container.volumeMounts =
        [[{ name := "config-volume", mountPath := "/etc/config" }]]) :=
  configmap_volume_shape
    { podName := "p", containerName := "c", image := "nginx", tag := "latest"
      port := 80, nsName := "default", configmap := "cm", output := "" }
    (by simp)

/-- C10: validation is atomic — if after merging configuration sources
any of pod-name, container-name, image or tag is empty, or port is 0,
the command returns with a validation error: no YAML is generated and no
output file is written. -/
theorem validation_atomic (c : PodConfig)
    (h : c.podName = "" ∨ c.containerName = "" ∨ c.image = "" ∨
      c.tag = "" ∨ c.port = 0) :
    generatePodYamlRun c = GenOutcome.validationError := by
  simp only [generatePodYamlRun, if_pos h]

/-- Closed witness for `validation_atomic`: a configuration missing the
image. -/
theorem validation_atomic_witness :
    generatePodYamlRun
        { podName := "p", containerName := "c", image := "", tag := "latest"
          port := 80, nsName := "default", configmap := "", output := "out.yaml" } =
      GenOutcome.validationError :=
  validation_atomic
    { podName := "p", containerName := "c", image := "", tag := "latest"
      port := 80, nsName := "default", configmap := "", output := "out.yaml" }
    (Or.inr (Or.inr (Or.inl rfl)))

end PodYaml

namespace Informer

theorem hasSynced_iff (s : QueueState) :
    hasSynced s = true ↔ (s.populated = true ∧ s.initialPending = []) := by
  simp [hasSynced, List.isEmpty_iff]

theorem put_populated (s : QueueState) (d : Delta) :
    (put s d).populated = s.populated := by
  cases hp : pendingGet s.pending d.obj.key with
  | none => rw [put_fresh s d hp]
  | some ds =>
    by_cases hc : d.kind = DeltaKind.Deleted ∧ isLoneAdded ds = true
    · rw [put_compress s d ds hp hc.1 hc.2]
    · rw [put_append s d ds hp hc]

theorem put_initialPending_nil (s : QueueState) (d : Delta)
    (h : s.initialPending = []) : (put s d).initialPending = [] := by
  cases hp : pendingGet s.pending d.obj.key with
  | none => rw [put_fresh s d hp]; exact h
  | some ds =>
    by_cases hc : d.kind = DeltaKind.Deleted ∧ isLoneAdded ds = true
    · rw [put_compress s d ds hp hc.1 hc.2]
      simp [h]
    · rw [put_append s d ds hp hc]
      exact h

theorem hasSynced_put (s : QueueState) (d : Delta)
    (h : hasSynced s = true) : hasSynced (put s d) = true := by
  rw [hasSynced_iff] at h ⊢
  exact ⟨(put_populated s d).trans h.1, put_initialPending_nil s d h.2⟩

theorem hasSynced_foldl_put (ds : List Delta) (s : QueueState)
    (h : hasSynced s = true) : hasSynced (ds.foldl put s) = true := by
  induction ds generalizing s with
  | nil => exact h
  | cons d rest ih => exact ih (put s d) (hasSynced_put s d h)

theorem foldl_put_populated (ds : List Delta) (s : QueueState) :
    (ds.foldl put s).populated = s.populated := by
  induction ds generalizing s with
  | nil => rfl
  | cons d rest ih => rw [List.foldl_cons, ih, put_populated]

theorem hasSynced_popStep (s : QueueState)
    (h : hasSynced s = true) : hasSynced (popStep s) = true := by
  rw [hasSynced_iff] at h ⊢
  cases hf : s.fifo with
  | nil => simp only [popStep, hf]; exact h
  | cons k rest =>
    simp only [popStep, hf]
    exact ⟨h.1, by simp [h.2]⟩

theorem hasSynced_replaceOp (s : QueueState) (snap : List Obj)
    (h : hasSynced s = true) : hasSynced (replaceOp s snap) = true := by
  have hsynced' := hasSynced_foldl_put (replaceDeltas s.store snap) s h
  have hpop : ((replaceDeltas s.store snap).foldl put s).populated = true :=
    (foldl_put_populated _ _).trans ((hasSynced_iff s).mp h).1
  simp only [replaceOp, hpop, if_pos]
  exact hsynced'

theorem hasSynced_resyncOp (s : QueueState)
    (h : hasSynced s = true) : hasSynced (resyncOp s) = true := by
  rw [resyncOp]
  generalize s.store = os
  induction os generalizing s with
  | nil => exact h
  | cons o rest ih =>
    rw [List.foldl_cons]
    by_cases hc : ((pendingGet s.pending o.key).getD []).any
        (fun d => d.kind ≠ DeltaKind.Sync) = true
    · rw [if_pos hc]
      exact ih s h
    · rw [if_neg hc]
      exact ih (put s ⟨DeltaKind.Sync, o⟩) (hasSynced_put s _ h)

theorem hasSynced_applyOp (s : QueueState) (op : Op)
    (h : hasSynced s = true) : hasSynced (applyOp s op) = true := by
  cases op with
  | putD d => exact hasSynced_put s d h
  | replace snap => exact hasSynced_replaceOp s snap h
  | resync => exact hasSynced_resyncOp s h
  | pop => exact hasSynced_popStep s h

/-- C2: sync barrier monotonicity — `hasSynced` is false in the fresh
state and in any state in which the first replace has not happened or
not all of its deltas have been popped; it is true as soon as they have;
and once true it stays true across every further operation sequence,
including deletes that empty the Store. -/
theorem hasSynced_monotone (s : QueueState) (ops : List Op) :
    hasSynced startState = false ∧
    (s.populated = false → hasSynced s = false) ∧
    (s.initialPending ≠ [] → hasSynced s = false) ∧
    (s.populated = true → s.initialPending = [] → hasSynced s = true) ∧
    (hasSynced s = true → hasSynced (applyOps s ops) = true) := by
  refine ⟨rfl, ?_, ?_, ?_, ?_⟩
  · intro h
    simp [hasSynced, h]
  · intro h
    simp [hasSynced, h]
  · intro h1 h2
    simp [hasSynced, h1, h2]
  · intro h
    induction ops generalizing s with
    | nil => exact h
    | cons op rest ih => exact ih (applyOp s op) (hasSynced_applyOp s op h)

/-- Closed witness for `hasSynced_monotone`: a synced state stays synced
after a delete empties the Store. -/
theorem hasSynced_monotone_witness :
    hasSynced (applyOps
      { store := [⟨1, 5⟩], pending := [], fifo := [], populated := true
        initialPending := [], trace := [] }
      [Op.putD ⟨DeltaKind.Deleted, ⟨1, 5⟩⟩, Op.pop]) = true :=
  (hasSynced_monotone
    { store := [⟨1, 5⟩], pending := [], fifo := [], populated := true
      initialPending := [], trace := [] }
    [Op.putD ⟨DeltaKind.Deleted, ⟨1, 5⟩⟩, Op.pop]).2.2.2.2 rfl

end Informer

namespace Informer

theorem processDeltas_fst (st : Store) (ds : List Delta) :
    (processDeltas st ds).1 = ds.foldl applyDelta st := by
  induction ds generalizing st with
  | nil => rfl
  | cons d rest ih =>
    simp only [processDeltas, List.foldl_cons]
    exact ih (applyDelta st d)

theorem processDeltas_length (st : Store) (ds : List Delta) :
    (processDeltas st ds).2.length = ds.length := by
  induction ds generalizing st with
  | nil => rfl
  | cons d rest ih =>
    simp only [processDeltas, List.length_cons]
    rw [ih (applyDelta st d)]

theorem processDeltas_get (st : Store) (ds : List Delta) (i : Nat)
    (hi : i < ds.length) (hi' : i < (processDeltas st ds).2.length) :
    (processDeltas st ds).2.get ⟨i, hi'⟩ =
      dispatch ((ds.take i).foldl applyDelta st) (ds.get ⟨i, hi⟩) := by
  induction ds generalizing st i with
  | nil => exact absurd hi (by simp)
  | cons d rest ih =>
    cases i with
    | zero => rfl
    | succ j =>
      have hj : j < rest.length := by
        simpa using hi
      have hj' : j < (processDeltas (applyDelta st d) rest).2.length := by
        rw [processDeltas_length]
        exact hj
      simpa [processDeltas, List.get] using ih (applyDelta st d) j hj hj'

theorem dispatch_key (st : Store) (d : Delta) :
    (dispatch st d).key = d.obj.key := by
  obtain ⟨kind, o⟩ := d
  cases kind with
  | Added => rfl
  | Updated => rfl
  | Sync => rfl
  | Deleted =>
    simp only [dispatch, HEvent.key]
    cases hs : storeGet st o.key with
    | none => rfl
    | some x => simpa using storeGet_key hs

theorem processDeltas_key (st : Store) (ds : List Delta) (k : Key)
    (hk : ∀ d ∈ ds, d.obj.key = k) :
    ∀ ev ∈ (processDeltas st ds).2, ev.key = k := by
  induction ds generalizing st with
  | nil => simp [processDeltas]
  | cons d rest ih =>
    intro ev hev
    simp only [processDeltas, List.mem_cons] at hev
    cases hev with
    | inl h =>
      rw [h, dispatch_key]
      exact hk d (List.mem_cons_self d rest)
    | inr h =>
      exact ih (applyDelta st d) (fun x hx => hk x (List.mem_cons_of_mem d hx)) ev h

theorem processDeltas_getD (st : Store) (ds : List Delta) (i : Nat)
    (hi : i < ds.length) (e0 : HEvent) (d0 : Delta) :
    (processDeltas st ds).2.getD i e0 =
      dispatch ((ds.take i).foldl applyDelta st) (ds.getD i d0) := by
  induction ds generalizing st i with
  | nil => exact absurd hi (by simp)
  | cons d rest ih =>
    cases i with
    | zero => rfl
    | succ j =>
      have hj : j < rest.length := by
        simpa using hi
      simpa [processDeltas] using ih (applyDelta st d) j hj

/-- C3: per-key ordering — the pending list of a key records its deltas
in arrival order (`put` appends when no coalescing applies), and popping
a key invokes the handlers exactly once per pending delta, in that
order, every invocation being about that key; no claim is made across
distinct keys. -/
theorem perKey_ordering (s s' : QueueState) (k : Key) (rest : List Key)
    (ds : List Delta) (d' : Delta) (ds' : List Delta)
    (ev e0 : HEvent) (d0 : Delta) (i : Nat)
    (hf : s.fifo = k :: rest)
    (hp : pendingGet s.pending k = some ds)
    (hk : ∀ d ∈ ds, d.obj.key = k)
    (hp' : pendingGet s'.pending d'.obj.key = some ds')
    (hc' : ¬(d'.kind = DeltaKind.Deleted ∧ isLoneAdded ds' = true))
    (hev : ev ∈ (processDeltas s.store ds).2)
    (hi : i < ds.length) :
    pendingGet (put s' d').pending d'.obj.key = some (ds' ++ [d']) ∧
    (popStep s).trace = s.trace ++ (processDeltas s.store ds).2 ∧
    (processDeltas s.store ds).2.length = ds.length ∧
    ev.key = k ∧
    (processDeltas s.store ds).2.getD i e0 =
      dispatch ((ds.take i).foldl applyDelta s.store) (ds.getD i d0) := by
  refine ⟨?_, ?_, processDeltas_length _ _,
    processDeltas_key _ _ _ hk ev hev, processDeltas_getD _ _ i hi e0 d0⟩
  · rw [put_append s' d' ds' hp' hc']
    exact pendingGet_pendingSet_self _ _ _
  · simp only [popStep, hf, hp, Option.getD_some]

/-- Closed witness for `perKey_ordering`: key 1 with a pending `Added`
then `Updated`; an `Updated` is appended to a lone `Added`; the second
handler invocation is the dispatch of the second delta. -/
theorem perKey_ordering_witness :
    pendingGet (put
        { store := [], pending := [(1, [⟨DeltaKind.Added, ⟨1, 0⟩⟩])]
          fifo := [1], populated := false, initialPending := [], trace := [] }
        ⟨DeltaKind.Updated, ⟨1, 1⟩⟩).pending 1 =
      some ([⟨DeltaKind.Added, ⟨1, 0⟩⟩] ++ [⟨DeltaKind.Updated, ⟨1, 1⟩⟩]) ∧
    (popStep
        { store := []
          pending := [(1, [⟨DeltaKind.Added, ⟨1, 0⟩⟩, ⟨DeltaKind.Updated, ⟨1, 1⟩⟩])]
          fifo := [1], populated := true, initialPending := [1]
          trace := [] }).trace =
      [] ++ (processDeltas []
        [⟨DeltaKind.Added, ⟨1, 0⟩⟩, ⟨DeltaKind.Updated, ⟨1, 1⟩⟩]).2 ∧
    (processDeltas []
      [⟨DeltaKind.Added, ⟨1, 0⟩⟩, ⟨DeltaKind.Updated, ⟨1, 1⟩⟩]).2.length =
      List.length ([⟨DeltaKind.Added, ⟨1, 0⟩⟩, ⟨DeltaKind.Updated, ⟨1, 1⟩⟩] : List Delta) ∧
    (HEvent.onAdd (⟨1, 0⟩ : Obj)).key = 1 ∧
    (processDeltas []
        [⟨DeltaKind.Added, ⟨1, 0⟩⟩, ⟨DeltaKind.Updated, ⟨1, 1⟩⟩]).2.getD 1
        (HEvent.onAdd ⟨0, 0⟩) =
      dispatch
        ((List.take 1 ([⟨DeltaKind.Added, ⟨1, 0⟩⟩, ⟨DeltaKind.Updated, ⟨1, 1⟩⟩] : List Delta)).foldl
          applyDelta [])
        (List.getD ([⟨DeltaKind.Added, ⟨1, 0⟩⟩, ⟨DeltaKind.Updated, ⟨1, 1⟩⟩] : List Delta) 1
          ⟨DeltaKind.Added, ⟨0, 0⟩⟩) :=
  perKey_ordering
    { store := []
      pending := [(1, [⟨DeltaKind.Added, ⟨1, 0⟩⟩, ⟨DeltaKind.Updated, ⟨1, 1⟩⟩])]
      fifo := [1], populated := true, initialPending := [1], trace := [] }
    { store := [], pending := [(1, [⟨DeltaKind.Added, ⟨1, 0⟩⟩])]
      fifo := [1], populated := false, initialPending := [], trace := [] }
    1 []
    [⟨DeltaKind.Added, ⟨1, 0⟩⟩, ⟨DeltaKind.Updated, ⟨1, 1⟩⟩]
    ⟨DeltaKind.Updated, ⟨1, 1⟩⟩
    [⟨DeltaKind.Added, ⟨1, 0⟩⟩]
    (HEvent.onAdd ⟨1, 0⟩) (HEvent.onAdd ⟨0, 0⟩) ⟨DeltaKind.Added, ⟨0, 0⟩⟩ 1
    rfl rfl (by decide) rfl (by decide) (by decide) (by decide)

end Informer

namespace Informer

/-- C4: processor dispatch semantics — popping a ready key folds its
deltas into the Store in order and appends one handler invocation per
delta, each computed from the Store value read before that delta is
applied: `Added` invokes `onAdd(object)` and sets the key, `Updated`
invokes `onUpdate(previous, current)` and sets the key, `Deleted`
invokes `onDelete(lastKnown)` and removes the key, and a `Sync` delta
whose object is the current Store value invokes
`onUpdate(current, current)`. -/
theorem processor_dispatch (s : QueueState) (k : Key) (rest : List Key)
    (st : Store) (o o' : Obj) (d : Delta) (ds : List Delta)
    (hf : s.fifo = k :: rest)
    (hsync : storeGet st o'.key = some o') :
    (popStep s).store =
      ((pendingGet s.pending k).getD []).foldl applyDelta s.store ∧
    (popStep s).trace =
      s.trace ++ (processDeltas s.store ((pendingGet s.pending k).getD [])).2 ∧
    processDeltas st (d :: ds) =
      ((processDeltas (applyDelta st d) ds).1,
        dispatch st d :: (processDeltas (applyDelta st d) ds).2) ∧
    applyDelta st ⟨DeltaKind.Added, o⟩ = storeSet st o ∧
    applyDelta st ⟨DeltaKind.Updated, o⟩ = storeSet st o ∧
    applyDelta st ⟨DeltaKind.Sync, o⟩ = storeSet st o ∧
    applyDelta st ⟨DeltaKind.Deleted, o⟩ = storeRemove st o.key ∧
    dispatch st ⟨DeltaKind.Added, o⟩ = HEvent.onAdd o ∧
    dispatch st ⟨DeltaKind.Updated, o⟩ =
      HEvent.onUpdate ((storeGet st o.key).getD o) o ∧
    dispatch st ⟨DeltaKind.Deleted, o⟩ =
      HEvent.onDelete ((storeGet st o.key).getD o) ∧
    dispatch st ⟨DeltaKind.Sync, o'⟩ = HEvent.onUpdate o' o' := by
  refine ⟨?_, ?_, rfl, rfl, rfl, rfl, rfl, rfl, rfl, rfl, ?_⟩
  · simp only [popStep, hf]
    exact processDeltas_fst _ _
  · simp only [popStep, hf]
  · simp [dispatch, hsync]

/-- Closed witness for `processor_dispatch` at a concrete state and
concrete objects. -/
theorem processor_dispatch_witness :
    (popStep
        { store := [], pending := [(1, [⟨DeltaKind.Added, ⟨1, 0⟩⟩])]
          fifo := [1], populated := true, initialPending := [1]
          trace := [] }).store =
      ((pendingGet [(1, [⟨DeltaKind.Added, ⟨1, 0⟩⟩])] 1).getD []).foldl
        applyDelta [] ∧
    (popStep
        { store := [], pending := [(1, [⟨DeltaKind.Added, ⟨1, 0⟩⟩])]
          fifo := [1], populated := true, initialPending := [1]
          trace := [] }).trace =
      [] ++ (processDeltas []
        ((pendingGet [(1, [⟨DeltaKind.Added, ⟨1, 0⟩⟩])] 1).getD [])).2 ∧
    processDeltas [⟨2, 3⟩] (⟨DeltaKind.Added, ⟨1, 0⟩⟩ :: []) =
      ((processDeltas (applyDelta [⟨2, 3⟩] ⟨DeltaKind.Added, ⟨1, 0⟩⟩) []).1,
        dispatch [⟨2, 3⟩] ⟨DeltaKind.Added, ⟨1, 0⟩⟩ ::
          (processDeltas (applyDelta [⟨2, 3⟩] ⟨DeltaKind.Added, ⟨1, 0⟩⟩) []).2) ∧
    applyDelta [⟨2, 3⟩] ⟨DeltaKind.Added, ⟨5, 7⟩⟩ = storeSet [⟨2, 3⟩] ⟨5, 7⟩ ∧
    applyDelta [⟨2, 3⟩] ⟨DeltaKind.Updated, ⟨5, 7⟩⟩ = storeSet [⟨2, 3⟩] ⟨5, 7⟩ ∧
    applyDelta [⟨2, 3⟩] ⟨DeltaKind.Sync, ⟨5, 7⟩⟩ = storeSet [⟨2, 3⟩] ⟨5, 7⟩ ∧
    applyDelta [⟨2, 3⟩] ⟨DeltaKind.Deleted, ⟨5, 7⟩⟩ =
      storeRemove [⟨2, 3⟩] (Obj.key ⟨5, 7⟩) ∧
    dispatch [⟨2, 3⟩] ⟨DeltaKind.Added, ⟨5, 7⟩⟩ = HEvent.onAdd ⟨5, 7⟩ ∧
    dispatch [⟨2, 3⟩] ⟨DeltaKind.Updated, ⟨5, 7⟩⟩ =
      HEvent.onUpdate ((storeGet [⟨2, 3⟩] (Obj.key ⟨5, 7⟩)).getD ⟨5, 7⟩) ⟨5, 7⟩ ∧
    dispatch [⟨2, 3⟩] ⟨DeltaKind.Deleted, ⟨5, 7⟩⟩ =
      HEvent.onDelete ((storeGet [⟨2, 3⟩] (Obj.key ⟨5, 7⟩)).getD ⟨5, 7⟩) ∧
    dispatch [⟨2, 3⟩] ⟨DeltaKind.Sync, ⟨2, 3⟩⟩ = HEvent.onUpdate ⟨2, 3⟩ ⟨2, 3⟩ :=
  processor_dispatch
    { store := [], pending := [(1, [⟨DeltaKind.Added, ⟨1, 0⟩⟩])]
      fifo := [1], populated := true, initialPending := [1], trace := [] }
    1 [] [⟨2, 3⟩] ⟨5, 7⟩ ⟨2, 3⟩ ⟨DeltaKind.Added, ⟨1, 0⟩⟩ []
    rfl rfl

end Informer

namespace Informer

theorem storeGet_mem {st : Store} {k : Key} {o : Obj}
    (h : storeGet st k = some o) : o ∈ st := by
  induction st with
  | nil => simp [storeGet] at h
  | cons x rest ih =>
    by_cases hx : x.key = k
    · simp only [storeGet, if_pos hx, Option.some.injEq] at h
      simp [h]
    · rw [storeGet, if_neg hx] at h
      exact List.mem_cons_of_mem x (ih h)

theorem storeGet_eq_none {st : Store} {k : Key} :
    storeGet st k = none ↔ ∀ o ∈ st, o.key ≠ k := by
  induction st with
  | nil => simp [storeGet]
  | cons x rest ih =>
    by_cases hx : x.key = k
    · simp [storeGet, hx]
    · simp [storeGet, hx, ih]

theorem foldl_storeSet_not_mem (os : List Obj) (st : Store) (k : Key)
    (h : k ∉ os.map Obj.key) :
    storeGet (os.foldl storeSet st) k = storeGet st k := by
  induction os generalizing st with
  | nil => rfl
  | cons o rest ih =>
    simp only [List.map_cons, List.mem_cons] at h
    push_neg at h
    rw [List.foldl_cons, ih (storeSet st o) h.2,
      storeGet_storeSet_ne st o k h.1]

theorem foldl_storeSet_mem (os : List Obj) (st : Store) (o : Obj)
    (hn : (os.map Obj.key).Nodup) (ho : o ∈ os) :
    storeGet (os.foldl storeSet st) o.key = some o := by
  induction os generalizing st with
  | nil => exact absurd ho (by simp)
  | cons x rest ih =>
    simp only [List.map_cons, List.nodup_cons] at hn
    rw [List.foldl_cons]
    rcases List.mem_cons.mp ho with hox | hor
    · subst hox
      have : o.key ∉ rest.map Obj.key := hn.1
      rw [foldl_storeSet_not_mem rest (storeSet st o) o.key this]
      exact storeGet_storeSet_self st o
    · exact ih (storeSet st x) hn.2 hor

theorem foldl_storeRemove_none (ks : List Key) (st : Store) (k : Key)
    (h : storeGet st k = none) :
    storeGet (ks.foldl storeRemove st) k = none := by
  induction ks generalizing st with
  | nil => exact h
  | cons k' rest ih =>
    rw [List.foldl_cons]
    refine ih (storeRemove st k') ?_
    by_cases hk : k = k'
    · subst hk
      exact storeGet_storeRemove_self st k
    · rw [storeGet_storeRemove_ne st k' k hk]
      exact h

theorem foldl_storeRemove_mem (ks : List Key) (st : Store) (k : Key)
    (hk : k ∈ ks) : storeGet (ks.foldl storeRemove st) k = none := by
  induction ks generalizing st with
  | nil => exact absurd hk (by simp)
  | cons k' rest ih =>
    rw [List.foldl_cons]
    rcases List.mem_cons.mp hk with h | h
    · subst h
      exact foldl_storeRemove_none rest (storeRemove st k) k
        (storeGet_storeRemove_self st k)
    · exact ih (storeRemove st k') h

theorem foldl_storeRemove_not_mem (ks : List Key) (st : Store) (k : Key)
    (hk : k ∉ ks) :
    storeGet (ks.foldl storeRemove st) k = storeGet st k := by
  induction ks generalizing st with
  | nil => rfl
  | cons k' rest ih =>
    simp only [List.mem_cons] at hk
    push_neg at hk
    rw [List.foldl_cons, ih (storeRemove st k') hk.2,
      storeGet_storeRemove_ne st k' k hk.1]

end Informer

namespace Informer

/-- Proof-support predicate: the replace computation emits a delta for a
snapshot object exactly when its key is new or its version changed. -/
def needsDelta (st : Store) (o : Obj) : Bool :=
  match storeGet st o.key with
  | none => true
  | some old => decide (old.rv ≠ o.rv)

theorem foldl_replaceAdds (st : Store) (snap : List Obj) (st0 : Store) :
    ((snap.filterMap fun o =>
      match storeGet st o.key with
      | none => some ⟨DeltaKind.Added, o⟩
      | some old =>
        if old.rv ≠ o.rv then some ⟨DeltaKind.Updated, o⟩ else none)).foldl
        applyDelta st0 =
      (snap.filter (needsDelta st)).foldl storeSet st0 := by
  induction snap generalizing st0 with
  | nil => rfl
  | cons o rest ih =>
    cases hso : storeGet st o.key with
    | none =>
      have hneed : needsDelta st o = true := by
        simp [needsDelta, hso]
      simp only [List.filterMap_cons, hso, List.filter_cons, hneed,
        if_pos, List.foldl_cons]
      exact ih (storeSet st0 o)
    | some old =>
      by_cases hrv : old.rv ≠ o.rv
      · have hneed : needsDelta st o = true := by
          simp [needsDelta, hso, hrv]
        simp only [List.filterMap_cons, hso, if_pos hrv, List.filter_cons,
          hneed, List.foldl_cons]
        exact ih (storeSet st0 o)
      · have hneed : needsDelta st o = false := by
          simp only [needsDelta, hso]
          simpa using hrv
        simp only [List.filterMap_cons, hso, if_neg hrv, List.filter_cons,
          hneed]
        simp only [Bool.false_eq_true, if_false]
        exact ih st0

theorem foldl_replaceDeletes (snap : List Obj) (xs : List Obj)
    (st0 : Store) :
    ((xs.filterMap fun x =>
      if snap.any (fun o => o.key = x.key) then none
      else some ⟨DeltaKind.Deleted, x⟩)).foldl applyDelta st0 =
      ((xs.filter fun x => !snap.any (fun o => o.key = x.key)).map
        Obj.key).foldl storeRemove st0 := by
  induction xs generalizing st0 with
  | nil => rfl
  | cons x rest ih =>
    by_cases hx : snap.any (fun o => o.key = x.key) = true
    · simp only [List.filterMap_cons, hx, if_pos, List.filter_cons,
        Bool.not_true, Bool.false_eq_true, if_false]
      exact ih st0
    · have hx' : snap.any (fun o => o.key = x.key) = false := by
        simpa using hx
      simp only [List.filterMap_cons, List.filter_cons, hx',
        Bool.false_eq_true, if_false, Bool.not_false, if_true,
        List.map_cons, List.foldl_cons]
      exact ih (storeRemove st0 x.key)

end Informer

namespace Informer

theorem needsDelta_false {st : Store} {o : Obj}
    (h : needsDelta st o = false) : storeGet st o.key = some o := by
  cases hso : storeGet st o.key with
  | none => simp [needsDelta, hso] at h
  | some old =>
    have hrv : old.rv = o.rv := by
      simpa [needsDelta, hso] using h
    have hkey : old.key = o.key := storeGet_key hso
    have heq : old = o := by
      cases old
      cases o
      simp_all
    exact congrArg some heq

/-- C5: full-replace correctness — for any prior Store contents and any
snapshot with distinct keys, applying the deltas generated by
`Replace(snapshot)` (Added for new keys, Updated for changed versions,
synthetic Deleted for vanished keys) leaves the Store equal to the
snapshot, key by key. -/
theorem replace_correct (st : Store) (snap : List Obj) (k : Key)
    (hsnap : (snap.map Obj.key).Nodup) :
    storeGet (processDeltas st (replaceDeltas st snap)).1 k =
      storeGet snap k := by
  rw [processDeltas_fst]
  simp only [replaceDeltas]
  rw [List.foldl_append, foldl_replaceAdds, foldl_replaceDeletes]
  cases hsk : storeGet snap k with
  | some o =>
    have hok : o.key = k := storeGet_key hsk
    have homem : o ∈ snap := storeGet_mem hsk
    have hkks : k ∉ (st.filter fun x =>
        !snap.any (fun o' => o'.key = x.key)).map Obj.key := by
      intro hk
      simp only [List.mem_map, List.mem_filter] at hk
      obtain ⟨x, ⟨_, hxany⟩, hxk⟩ := hk
      rw [Bool.not_eq_eq_eq_not, Bool.not_true, List.any_eq_false] at hxany
      exact hxany o homem (by simp [hok, hxk])
    rw [foldl_storeRemove_not_mem _ _ _ hkks]
    by_cases hneed : needsDelta st o = true
    · have hmemf : o ∈ snap.filter (needsDelta st) :=
        List.mem_filter.mpr ⟨homem, hneed⟩
      have hnd : ((snap.filter (needsDelta st)).map Obj.key).Nodup :=
        List.Nodup.sublist (List.Sublist.map Obj.key (List.filter_sublist _))
          hsnap
      rw [← hok]
      exact foldl_storeSet_mem _ st o hnd hmemf
    · have hneed' : needsDelta st o = false := by
        simpa using hneed
      have hkf : k ∉ (snap.filter (needsDelta st)).map Obj.key := by
        intro hk
        simp only [List.mem_map, List.mem_filter] at hk
        obtain ⟨x, ⟨hxsnap, hxneed⟩, hxk⟩ := hk
        have hxo : x = o :=
          List.inj_on_of_nodup_map hsnap hxsnap homem (by rw [hxk, hok])
        rw [hxo] at hxneed
        rw [hneed'] at hxneed
        exact Bool.false_ne_true hxneed
      rw [foldl_storeSet_not_mem _ _ _ hkf, ← hok]
      exact needsDelta_false hneed'
  | none =>
    have hall : ∀ x ∈ snap, x.key ≠ k := storeGet_eq_none.mp hsk
    have hkf : k ∉ (snap.filter (needsDelta st)).map Obj.key := by
      intro hk
      simp only [List.mem_map, List.mem_filter] at hk
      obtain ⟨x, ⟨hxsnap, _⟩, hxk⟩ := hk
      exact hall x hxsnap hxk
    cases hstk : storeGet st k with
    | none =>
      refine foldl_storeRemove_none _ _ _ ?_
      rw [foldl_storeSet_not_mem _ _ _ hkf]
      exact hstk
    | some x0 =>
      have hx0 : x0 ∈ st := storeGet_mem hstk
      have hx0k : x0.key = k := storeGet_key hstk
      refine foldl_storeRemove_mem _ _ _ ?_
      refine List.mem_map.mpr ⟨x0, List.mem_filter.mpr ⟨hx0, ?_⟩, hx0k⟩
      rw [Bool.not_eq_eq_eq_not, Bool.not_true, List.any_eq_false]
      intro o ho
      simp [hx0k, hall o ho]

/-- Closed witness for `replace_correct`: replacing a Store holding keys
1 and 2 with a snapshot holding keys 2 (new version) and 3 makes key 1
read as absent, matching the snapshot. -/
theorem replace_correct_witness :
    storeGet (processDeltas [⟨1, 5⟩, ⟨2, 7⟩]
      (replaceDeltas [⟨1, 5⟩, ⟨2, 7⟩] [⟨2, 8⟩, ⟨3, 1⟩])).1 1 =
      storeGet [⟨2, 8⟩, ⟨3, 1⟩] 1 :=
  replace_correct [⟨1, 5⟩, ⟨2, 7⟩] [⟨2, 8⟩, ⟨3, 1⟩] 1 (by decide)

end Informer

namespace Informer

/-- C6: resync behaviour and frame condition — with the Store holding
exactly two objects `A` and `B` (distinct keys) and the queue otherwise
empty, `resync()` enqueues a `Sync` delta per stored key and draining the
queue produces exactly `onUpdate(A, A)` and `onUpdate(B, B)`, with the
Store unchanged and the queue empty again. -/
theorem resync_scenario (A B : Obj) (p : Bool) (ip : List Key)
    (t : List HEvent) (hAB : A.key ≠ B.key) :
    (popStep (popStep (resyncOp
        { store := [A, B], pending := [], fifo := [], populated := p
          initialPending := ip, trace := t }))).trace =
      t ++ [HEvent.onUpdate A A, HEvent.onUpdate B B] ∧
    (popStep (popStep (resyncOp
        { store := [A, B], pending := [], fifo := [], populated := p
          initialPending := ip, trace := t }))).store = [A, B] ∧
    (popStep (popStep (resyncOp
        { store := [A, B], pending := [], fifo := [], populated := p
          initialPending := ip, trace := t }))).pending = [] ∧
    (popStep (popStep (resyncOp
        { store := [A, B], pending := [], fifo := [], populated := p
          initialPending := ip, trace := t }))).fifo = [] := by
  refine ⟨?_, ?_, ?_, ?_⟩ <;>
    simp [resyncOp, put, popStep, pendingGet, pendingSet, pendingRemove,
      processDeltas, dispatch, applyDelta, storeGet, storeSet, isLoneAdded,
      hAB, Ne.symm hAB]

/-- Closed witness for `resync_scenario` at two concrete objects. -/
theorem resync_scenario_witness :
    (popStep (popStep (resyncOp
        { store := [⟨1, 5⟩, ⟨2, 7⟩], pending := [], fifo := []
          populated := true, initialPending := [], trace := [] }))).trace =
      [] ++ [HEvent.onUpdate ⟨1, 5⟩ ⟨1, 5⟩, HEvent.onUpdate ⟨2, 7⟩ ⟨2, 7⟩] ∧
    (popStep (popStep (resyncOp
        { store := [⟨1, 5⟩, ⟨2, 7⟩], pending := [], fifo := []
          populated := true, initialPending := [], trace := [] }))).store =
      [⟨1, 5⟩, ⟨2, 7⟩] ∧
    (popStep (popStep (resyncOp
        { store := [⟨1, 5⟩, ⟨2, 7⟩], pending := [], fifo := []
          populated := true, initialPending := [], trace := [] }))).pending = [] ∧
    (popStep (popStep (resyncOp
        { store := [⟨1, 5⟩, ⟨2, 7⟩], pending := [], fifo := []
          populated := true, initialPending := [], trace := [] }))).fifo = [] :=
  resync_scenario ⟨1, 5⟩ ⟨2, 7⟩ true [] [] (by decide)

end Informer
